import Mathlib

/-!
Verification development for a quantum-operator core consisting of:

* `pennylane/templates/subroutines/multiplier.py` — the in-place modular
  multiplication template `Multiplier` (construction-time validation,
  QFT-based decomposition, wire mapping);
* `pennylane/ops/qutrit/non_parametric_ops.py` — the parameter-free qutrit
  primitives `TShift`, `TClock`, `TAdd`, `TSWAP` (matrix, `pow`, `adjoint`);
* the `PrepSelPrep` block-encoding composer, whose implementation is known
  here only through its specification and its test suite; the definitions
  for it below are modelled from the specification.

Wires are modelled as natural numbers (they are opaque identifiers in the
source).  Python integers are modelled as `ℤ`; Python's `%` with a positive
modulus agrees with `Int.emod`.  Fallible Python code (code that can raise)
is modelled with `Except String` or `Option`.
-/

/-! ### Gate vocabulary emitted by `Multiplier.compute_decomposition` -/

/-- The gates that appear in the decomposition of `Multiplier`:
`qml.QFT`, `qml.ControlledSequence(qml.PhaseAdder(k, wires_aux, mod,
work_wire_aux), control=x_wires)`, `qml.SWAP`, and `qml.adjoint` wrappers.
Each is recorded with the arguments the Python code passes. -/
inductive MGate where
  | qft (wires : List ℕ)
  | ctrlSeqPhaseAdder (k : ℤ) (wiresAux : List ℕ) (mod : ℤ)
      (workWireAux : Option (List ℕ)) (control : List ℕ)
  | swapG (w1 w2 : ℕ)
  | adjG (g : MGate)
deriving DecidableEq, Repr

/-- Embedding of `_mul_out_k_mod(k, x_wires, mod, work_wire_aux, wires_aux)`:
`[QFT(wires_aux), ControlledSequence(PhaseAdder(k, wires_aux, mod,
work_wire_aux), control=x_wires), adjoint(QFT(wires_aux))]`. -/
def mulOutKMod (k : ℤ) (xWires : List ℕ) (mod : ℤ)
    (workWireAux : Option (List ℕ)) (wiresAux : List ℕ) : List MGate :=
  [MGate.qft wiresAux,
   MGate.ctrlSeqPhaseAdder k wiresAux mod workWireAux xWires,
   MGate.adjG (MGate.qft wiresAux)]

/-- Embedding of `qml.adjoint(fn)` applied to a gate-list-producing function:
the emitted operations are the adjoints of the original operations in
reverse order. -/
def adjointSeq (ops : List MGate) : List MGate :=
  ops.reverse.map MGate.adjG

/-- Embedding of Python's `pow(k, -1, mod)`: the unique inverse of `k`
modulo `mod` in `[0, mod)`, or `none` when no inverse exists (Python raises
`ValueError` there).  The comparison is against `1 % mod` so that the
modulus `1` behaves as in Python (`pow(k, -1, 1) = 0`). -/
def modInverse (k mod : ℤ) : Option ℤ :=
  ((List.range mod.toNat).find? (fun j : ℕ => k * (j : ℤ) % mod == 1 % mod)).map
    (fun j : ℕ => (j : ℤ))

/-- Embedding of `Multiplier.compute_decomposition(k, x_wires, mod,
work_wires)`.  The split of `work_wires` into `work_wire_aux`, `wires_aux`
and `wires_aux_swap` follows the two branches of the Python code; the
result is `none` when `pow(k, -1, mod)` raises. -/
def computeDecomposition (k : ℤ) (xWires : List ℕ) (mod : ℤ)
    (workWires : List ℕ) : Option (List MGate) :=
  let workWireAux : Option (List ℕ) :=
    if mod ≠ 2 ^ xWires.length then some (workWires.take 1) else none
  let wiresAux : List ℕ :=
    if mod ≠ 2 ^ xWires.length then workWires.drop 1
    else workWires.take xWires.length
  let wiresAuxSwap : List ℕ :=
    if mod ≠ 2 ^ xWires.length then (workWires.drop 1).drop 1
    else workWires.take xWires.length
  (modInverse k mod).map (fun invK =>
    mulOutKMod k xWires mod workWireAux wiresAux
      ++ (List.zip xWires wiresAuxSwap).map (fun p => MGate.swapG p.1 p.2)
      ++ adjointSeq (mulOutKMod invK xWires mod workWireAux wiresAux))

/-! ### The `Multiplier` operator -/

/-- The hyperparameters stored by a successfully constructed `Multiplier`:
`k` (already reduced modulo `mod`), `mod`, `x_wires` and `work_wires`. -/
structure Multiplier where
  k : ℤ
  mod : ℤ
  xWires : List ℕ
  workWires : List ℕ
deriving DecidableEq, Repr

/-- Embedding of `Multiplier.__init__`.  The checks appear in source
order; `mod = none` selects the default `2 ^ len(x_wires)`.  Python's
`k % 0` raises `ZeroDivisionError`, modelled as a distinct error. -/
def multiplierConstruct (k : ℤ) (xWires : List ℕ) (modArg : Option ℤ)
    (workWires : List ℕ) : Except String Multiplier :=
  if xWires.any (fun w => workWires.contains w) then
    .error "None of the wire in work_wires should be included in x_wires."
  else
    let mod := modArg.getD (2 ^ xWires.length)
    if mod ≠ 2 ^ xWires.length ∧ workWires.length < xWires.length + 2 then
      .error "Multiplier needs as many work_wires as x_wires plus two."
    else if workWires.length < xWires.length then
      .error "Multiplier needs as many work_wires as x_wires."
    else if 2 ^ xWires.length < mod then
      .error "Multiplier must have enough wires to represent mod."
    else if mod = 0 then
      .error "ZeroDivisionError: integer modulo by zero"
    else
      let kr := k % mod
      if Int.gcd kr mod ≠ 1 then
        .error "The operator cannot be built because k has no inverse modulo mod."
      else
        .ok ⟨kr, mod, xWires, workWires⟩

/-- `Multiplier.decomposition()` forwards the stored hyperparameters to
`compute_decomposition`. -/
def Multiplier.decomposition (m : Multiplier) : Option (List MGate) :=
  computeDecomposition m.k m.xWires m.mod m.workWires

/-- Python's `wire_map.get(w, w)`, with the wire map as an association
list. -/
def applyWireMap (wireMap : List (ℕ × ℕ)) (w : ℕ) : ℕ :=
  (wireMap.lookup w).getD w

/-- Embedding of `Multiplier.map_wires`: rebuild a `Multiplier` from the
stored `k` and `mod` and the elementwise-remapped wire registers.  Because
the Python code calls the `Multiplier` constructor, all construction-time
validation runs again. -/
def Multiplier.mapWires (m : Multiplier) (wireMap : List (ℕ × ℕ)) :
    Except String Multiplier :=
  multiplierConstruct m.k (m.xWires.map (applyWireMap wireMap)) (some m.mod)
    (m.workWires.map (applyWireMap wireMap))

/-! ### Qutrit primitives: `TShift`, `TClock`, `TAdd`, `TSWAP` -/

/-- Which of the four parameter-free qutrit primitives an instance is. -/
inductive TOpKind where
  | shift
  | clock
  | add
  | swap
deriving DecidableEq, Repr

/-- An instance of a qutrit primitive: its kind, its wires, and the
`inverse` flag (`False` on freshly constructed instances). -/
structure TOp where
  kind : TOpKind
  wires : List ℕ
  inverse : Bool
deriving DecidableEq, Repr

/-- Embedding of the `adjoint` methods: `TShift`, `TClock` and `TAdd`
return a new instance on the same wires with `op.inverse = not
self.inverse`; `TSWAP.adjoint` returns `TSWAP(wires=self.wires)`, a fresh
instance whose `inverse` flag has the default value `False`. -/
def TOp.adjoint (op : TOp) : TOp :=
  match op.kind with
  | .swap => ⟨.swap, op.wires, false⟩
  | k => ⟨k, op.wires, !op.inverse⟩

/-- The cyclic order of each primitive: 3 for `TShift`/`TClock`/`TAdd`,
2 for `TSWAP`. -/
def TOp.order (op : TOp) : ℤ :=
  match op.kind with
  | .swap => 2
  | _ => 3

/-- Modelled from the spec: the generic `Operation.pow` fallback of the
external operator base class (not under `src/`).  `pow(0)` yields the
identity action (the empty product), `pow(1)` yields the operator itself;
other exponents are delegated outside this core (`none`). -/
def genericPow (op : TOp) (z : ℤ) : Option (List TOp) :=
  if z = 0 then some []
  else if z = 1 then some [op]
  else none

/-- Embedding of the `pow` methods for integer exponents: `TShift`,
`TClock` and `TAdd` reduce `z` modulo 3 and return `[self.adjoint()]` when
the reduction is 2, deferring to the generic fallback otherwise; `TSWAP`
defers to the generic fallback at `z % 2`. -/
def TOp.pow (op : TOp) (z : ℤ) : Option (List TOp) :=
  match op.kind with
  | .swap => genericPow op (z % 2)
  | _ =>
    if z % 3 < 2 then genericPow op (z % 3)
    else some [op.adjoint]

/-- Embedding of `TAdd.compute_matrix()`: the 9×9 array literal from the
source (integer entries). -/
def tAddMatrix : Matrix (Fin 9) (Fin 9) ℤ :=
  !![1, 0, 0, 0, 0, 0, 0, 0, 0;
     0, 1, 0, 0, 0, 0, 0, 0, 0;
     0, 0, 1, 0, 0, 0, 0, 0, 0;
     0, 0, 0, 0, 0, 1, 0, 0, 0;
     0, 0, 0, 1, 0, 0, 0, 0, 0;
     0, 0, 0, 0, 1, 0, 0, 0, 0;
     0, 0, 0, 0, 0, 0, 0, 1, 0;
     0, 0, 0, 0, 0, 0, 0, 0, 1;
     0, 0, 0, 0, 0, 0, 1, 0, 0]

/-- The computational basis column vector with a single 1 in position
`i`, as a function `Fin 9 → ℤ`. -/
def basisVec (i : Fin 9) : Fin 9 → ℤ :=
  fun r => if r = i then 1 else 0

/-! ### The `PrepSelPrep` block-encoding composer: static-shape path

The implementation of `PrepSelPrep` is not under `src/`: only its test
suite is.  The definitions in this section are modelled from the spec
(§4.3, §7) and pinned against the behaviour exercised by
`tests/templates/test_subroutines/test_prepselprep.py`.  Coefficients of
the static-shape (`jit=True`) path are exact machine numbers; they are
modelled as complex rationals. -/

/-- A complex coefficient with exact rational real and imaginary parts
(the float coefficients of the static-shape path are exact binary
rationals). -/
structure CoeffQ where
  re : ℚ
  im : ℚ
deriving DecidableEq, Repr

/-- `n` is an exact power of two. -/
def isPowerOfTwoNat (n : ℕ) : Bool :=
  (List.range (n + 1)).any (fun j => 2 ^ j == n)

/-- Sum of the squared moduli of the coefficients. -/
def coeffNormSq (coeffs : List CoeffQ) : ℚ :=
  (coeffs.map (fun c => c.re ^ 2 + c.im ^ 2)).sum

/-- Modelled from the spec: the three validation checks of the
static-shape (`jit=True`) block-encoding path, in the order fixed by the
test suite (term count first, then positivity/realness, then
normalization), each with its own diagnostic. -/
def jitChecks (coeffs : List CoeffQ) : Except String Unit :=
  if ¬ isPowerOfTwoNat coeffs.length then
    .error "Number of terms must be a power of 2."
  else if coeffs.any (fun c => c.im != 0 || c.re < 0) then
    .error "Coefficients must be positive real numbers."
  else if coeffNormSq coeffs ≠ 1 then
    .error "Coefficients must have norm 1."
  else
    .ok ()

/-- A constructed `PrepSelPrep` operator: the LCU coefficients, the wire
list of each term's unitary, the control register, and the static-shape
flag. -/
structure PrepSelPrep where
  coeffs : List CoeffQ
  opsWires : List (List ℕ)
  control : List ℕ
  jit : Bool
deriving DecidableEq, Repr

/-- Modelled from the spec: `PrepSelPrep` construction validates that the
control wires are disjoint from every target unitary's wires (the only
construction-time check, per the test suite). -/
def prepSelPrepConstruct (coeffs : List CoeffQ) (opsWires : List (List ℕ))
    (control : List ℕ) (jit : Bool) : Except String PrepSelPrep :=
  if control.any (fun c => opsWires.any (fun ws => ws.contains c)) then
    .error "Control wires should be different from operation wires."
  else
    .ok ⟨coeffs, opsWires, control, jit⟩

/-- Modelled from the spec: `PrepSelPrep.decomposition()`.  The emitted
gate sequence is delegated to external collaborators (state preparation,
multiplexed selection) and is abstracted away here; only the validation
behaviour is modelled: the static-shape checks run at decomposition time
when `jit` is set, and no check runs otherwise. -/
def PrepSelPrep.decomposition (p : PrepSelPrep) : Except String Unit :=
  if p.jit then jitChecks p.coeffs else .ok ()

/-! ### The `PrepSelPrep` block-encoding composer: decomposition matrix

Modelled from the spec (§4.3): the decomposition is (state preparation on
the control register) · (multiplexed selection) · (adjoint state
preparation), where the state-preparation collaborator is any unitary
whose first column is the amplitude vector `√(|c i| / λ)` with
`λ = ∑ |c i|`, and the selected unitaries absorb each coefficient's
phase. -/

/-- The L1 norm `λ = ∑ i, |c i|` of the original LCU coefficients. -/
noncomputable def l1Norm {n : ℕ} (c : Fin n → ℂ) : ℝ :=
  ∑ i, Complex.abs (c i)

/-- The phase `c / |c|` of a coefficient, absorbed into the selected
unitary (0 when `c = 0`). -/
noncomputable def lcuPhase (c : ℂ) : ℂ :=
  c / (Complex.abs c : ℂ)

/-- The non-negative real amplitude `√(|c| / λ)` loaded on the control
register for a coefficient `c`. -/
noncomputable def lcuAmplitude (c : ℂ) (lam : ℝ) : ℝ :=
  Real.sqrt (Complex.abs c / lam)

/-- The multiplexed "select" stage: apply the `i`-th unitary when the
control register is in basis state `i`.  Indices are pairs
(control index, target index). -/
def selectMatrix {n d : ℕ} (U : Fin n → Matrix (Fin d) (Fin d) ℂ) :
    Matrix (Fin n × Fin d) (Fin n × Fin d) ℂ :=
  Matrix.of fun p q => if p.1 = q.1 then U p.1 p.2 q.2 else 0

/-- A control-register operator `P` extended by the identity on the
target register (`P ⊗ I`). -/
def controlTensor {n d : ℕ} (P : Matrix (Fin n) (Fin n) ℂ) :
    Matrix (Fin n × Fin d) (Fin n × Fin d) ℂ :=
  Matrix.of fun p q => if p.2 = q.2 then P p.1 q.1 else 0

/-- Modelled from the spec: the matrix of the three-stage `PrepSelPrep`
decomposition `Prep† · Select · Prep`, with the state-preparation unitary
`P` (applied first, hence rightmost) and selected unitaries
`(phase of c i) • U i`. -/
noncomputable def blockEncodingMatrix {n d : ℕ} (c : Fin n → ℂ)
    (U : Fin n → Matrix (Fin d) (Fin d) ℂ) (P : Matrix (Fin n) (Fin n) ℂ) :
    Matrix (Fin n × Fin d) (Fin n × Fin d) ℂ :=
  controlTensor P.conjTranspose *
    selectMatrix (fun i => lcuPhase (c i) • U i) *
    controlTensor P

/-! ### Helper lemmas -/

/-- Equality of `Except` results is decidable when both components are,
so concrete construction outcomes can be checked by evaluation. -/
instance exceptDecEq {ε α : Type} [DecidableEq ε] [DecidableEq α] :
    DecidableEq (Except ε α) := fun x y =>
  match x, y with
  | .error a, .error b =>
      if h : a = b then .isTrue (by rw [h]) else .isFalse (by simp [h])
  | .ok a, .ok b =>
      if h : a = b then .isTrue (by rw [h]) else .isFalse (by simp [h])
  | .error _, .ok _ => .isFalse (by simp)
  | .ok _, .error _ => .isFalse (by simp)

/-- Inversion of a successful `Multiplier` construction: the stored
hyperparameters and the facts guaranteed by the passed checks. -/
theorem multiplierConstruct_ok_inv {k : ℤ} {xWires workWires : List ℕ}
    {modArg : Option ℤ} {m : Multiplier}
    (h : multiplierConstruct k xWires modArg workWires = .ok m) :
    m.k = k % (modArg.getD (2 ^ xWires.length)) ∧
    m.mod = modArg.getD (2 ^ xWires.length) ∧
    m.xWires = xWires ∧ m.workWires = workWires ∧
    Int.gcd m.k m.mod = 1 ∧ m.mod ≠ 0 := by
  simp only [multiplierConstruct] at h
  split_ifs at h with h1 h2 h3 h4 h5 h6
  all_goals first
    | exact Except.noConfusion h
    | (injection h with h'
       subst h'
       exact ⟨rfl, rfl, rfl, rfl, by simpa using h6, h5⟩)

/-! ### C7: `TAdd` acts on basis states as a controlled modular add -/

/-- C7: for all `i, j ∈ {0, 1, 2}`, applying the matrix of `TAdd` to the
computational basis state `|i⟩|j⟩` (column index `3 i + j`) yields the
basis state `|i⟩|(i + j) mod 3⟩` (row index `3 i + ((i + j) mod 3)`). -/
theorem tAdd_matrix_basis_action (i j : Fin 3) :
    tAddMatrix.mulVec (basisVec ⟨3 * i.val + j.val, by omega⟩) =
      basisVec ⟨3 * i.val + (i.val + j.val) % 3, by omega⟩ := by
  fin_cases i <;> fin_cases j <;> decide

/-! ### C8: integer powers reduce modulo the cyclic order -/

/-- C8: for every integer `z`, `pow z` of each primitive depends only on
`z` modulo the primitive's cyclic order (3 for `TShift`/`TClock`/`TAdd`,
2 for `TSWAP`): the result equals `pow (z % order)`; and for the order-3
primitives, `pow z` with `z % 3 = 2` returns the single-element sequence
containing the operator's adjoint (at `z = 2` this is
`shift.pow 2 = [shift.adjoint]`). -/
theorem tOp_pow_mod_order (op : TOp) (z : ℤ) :
    op.pow z = op.pow (z % op.order) ∧
    (op.order = 3 → z % 3 = 2 → op.pow z = some [op.adjoint]) := by
  have h3 : z % 3 % 3 = z % 3 := Int.emod_emod_of_dvd z dvd_rfl
  have h2 : z % 2 % 2 = z % 2 := Int.emod_emod_of_dvd z dvd_rfl
  obtain ⟨kind, wires, inv⟩ := op
  cases kind <;> simp_all [TOp.pow, TOp.order]

/-- Witness for C8: the qutrit shift on wire 0 satisfies
`shift.pow 2 = [shift.adjoint]`. -/
theorem tOp_pow_mod_order_witness :
    (TOp.mk TOpKind.shift [0] false).pow 2 =
      some [(TOp.mk TOpKind.shift [0] false).adjoint] :=
  (tOp_pow_mod_order (TOp.mk TOpKind.shift [0] false) 2).2 (by decide) (by decide)

/-! ### C9: `adjoint` and the inversion flag -/

/-- C9 counterexample: `TSWAP.adjoint` does not negate the inversion
flag: a fresh `TSWAP` instance (flag `false`) has an adjoint whose flag is
again `false`, not `true`. -/
theorem tswap_adjoint_flag_counterexample :
    (TOp.mk TOpKind.swap [0, 1] false).adjoint.inverse ≠
      !(TOp.mk TOpKind.swap [0, 1] false).inverse := by
  decide

/-- C9 amended: every primitive's `adjoint` returns a new instance on the
same wires; `TShift`, `TClock` and `TAdd` negate the inversion flag, while
`TSWAP.adjoint` returns a fresh instance whose flag is `false` (the
original instance is unchanged, all operators being immutable values). -/
theorem tOp_adjoint_amended (op : TOp) :
    op.adjoint.wires = op.wires ∧
    op.adjoint.inverse = (if op.kind = TOpKind.swap then false else !op.inverse) := by
  obtain ⟨kind, wires, inv⟩ := op
  cases kind <;> simp [TOp.adjoint]

/-! ### C5: `Multiplier` wire and register validation -/

/-- C5: `Multiplier` construction fails whenever a wire is shared between
`x_wires` and `work_wires`; whenever `mod` (after defaulting to
`2 ^ |x_wires|`) differs from `2 ^ |x_wires|` and the work register has
fewer than `|x_wires| + 2` wires; whenever the work register has fewer
than `|x_wires|` wires; and whenever `mod` exceeds `2 ^ |x_wires|`.  When
all four conditions are satisfied, no failure of these kinds occurs: any
remaining failure carries a different diagnostic. -/
theorem multiplier_wire_validation (k : ℤ) (xWires workWires : List ℕ)
    (modArg : Option ℤ) :
    ((∃ w ∈ xWires, w ∈ workWires) →
        ∃ s, multiplierConstruct k xWires modArg workWires = .error s) ∧
    (modArg.getD (2 ^ xWires.length) ≠ 2 ^ xWires.length ∧
        workWires.length < xWires.length + 2 →
        ∃ s, multiplierConstruct k xWires modArg workWires = .error s) ∧
    (workWires.length < xWires.length →
        ∃ s, multiplierConstruct k xWires modArg workWires = .error s) ∧
    (2 ^ xWires.length < modArg.getD (2 ^ xWires.length) →
        ∃ s, multiplierConstruct k xWires modArg workWires = .error s) ∧
    (¬ (∃ w ∈ xWires, w ∈ workWires) →
      ¬ (modArg.getD (2 ^ xWires.length) ≠ 2 ^ xWires.length ∧
          workWires.length < xWires.length + 2) →
      ¬ workWires.length < xWires.length →
      ¬ 2 ^ xWires.length < modArg.getD (2 ^ xWires.length) →
      ∀ s, multiplierConstruct k xWires modArg workWires = .error s →
        s ≠ "None of the wire in work_wires should be included in x_wires." ∧
        s ≠ "Multiplier needs as many work_wires as x_wires plus two." ∧
        s ≠ "Multiplier needs as many work_wires as x_wires." ∧
        s ≠ "Multiplier must have enough wires to represent mod.") := by
  have hov : (xWires.any fun w => workWires.contains w) = true ↔
      ∃ w ∈ xWires, w ∈ workWires := by simp
  simp only [multiplierConstruct]
  split_ifs with h1 h2 h3 h4 h5 h6 <;>
    refine ⟨fun hc => ?_, fun hc => ?_, fun hc => ?_, fun hc => ?_,
      fun hc1 hc2 hc3 hc4 => ?_⟩ <;>
    simp_all

/-- Witness for C5: a shared wire makes construction fail, and on a
configuration passing all four wire conditions (`k = 2`, `mod = 4`) the
only failure is the coprimality diagnostic, which is none of the four
wire-validation diagnostics. -/
theorem multiplier_wire_validation_witness :
    (∃ s, multiplierConstruct 1 [0] none [0] = .error s) ∧
    ("The operator cannot be built because k has no inverse modulo mod." ≠
        "None of the wire in work_wires should be included in x_wires." ∧
      "The operator cannot be built because k has no inverse modulo mod." ≠
        "Multiplier needs as many work_wires as x_wires plus two." ∧
      "The operator cannot be built because k has no inverse modulo mod." ≠
        "Multiplier needs as many work_wires as x_wires." ∧
      "The operator cannot be built because k has no inverse modulo mod." ≠
        "Multiplier must have enough wires to represent mod.") :=
  ⟨(multiplier_wire_validation 1 [0] [0] none).1 ⟨0, by simp, by simp⟩,
   (multiplier_wire_validation 2 [0, 1] [2, 3] (some 4)).2.2.2.2
     (by decide) (by decide) (by decide) (by decide) _ (by decide)⟩

/-! ### C4: `Multiplier` coprimality validation -/

/-- C4: with the wire-register checks passing and a positive modulus
(the default `2 ^ |x_wires|` when `mod` is not given), `Multiplier`
construction reduces `k` modulo `mod` and then succeeds if and only if
`gcd (k mod mod) mod = 1`; on success the stored `k` is `k mod mod`, lies
in `[0, mod)` and is coprime to `mod`. -/
theorem multiplier_coprimality (k : ℤ) (xWires workWires : List ℕ)
    (modArg : Option ℤ) (mod : ℤ)
    (hmod : mod = modArg.getD (2 ^ xWires.length))
    (hpos : 0 < mod)
    (hov : ¬ ∃ w ∈ xWires, w ∈ workWires)
    (hww2 : ¬ (mod ≠ 2 ^ xWires.length ∧ workWires.length < xWires.length + 2))
    (hww : ¬ workWires.length < xWires.length)
    (hrep : ¬ 2 ^ xWires.length < mod) :
    ((∃ m, multiplierConstruct k xWires modArg workWires = .ok m) ↔
        Int.gcd (k % mod) mod = 1) ∧
    (∀ m, multiplierConstruct k xWires modArg workWires = .ok m →
        m.k = k % mod ∧ 0 ≤ m.k ∧ m.k < mod ∧ Int.gcd m.k mod = 1) := by
  subst hmod
  have hne : modArg.getD (2 ^ xWires.length) ≠ 0 := ne_of_gt hpos
  have hov' : (xWires.any fun w => workWires.contains w) = false := by
    simp only [Bool.eq_false_iff, ne_eq, List.any_eq_true]
    simpa using hov
  constructor
  · constructor
    · rintro ⟨m, hm⟩
      obtain ⟨hk, hmm, -, -, hg, -⟩ := multiplierConstruct_ok_inv hm
      rw [← hk, ← hmm]
      exact hg
    · intro hg
      refine ⟨⟨k % modArg.getD (2 ^ xWires.length),
        modArg.getD (2 ^ xWires.length), xWires, workWires⟩, ?_⟩
      simp only [multiplierConstruct, hov', Bool.false_eq_true, if_false]
      rw [if_neg hww2, if_neg hww, if_neg hrep, if_neg hne, if_neg (by simpa using hg)]
  · intro m hm
    obtain ⟨hk, hmm, -, -, hg, -⟩ := multiplierConstruct_ok_inv hm
    refine ⟨hk, ?_, ?_, ?_⟩
    · rw [hk]; exact Int.emod_nonneg k hne
    · rw [hk]; exact Int.emod_lt_of_pos k hpos
    · rw [← hmm]; exact hg

/-- Witness for C4: `k = 5`, `mod = 3`, two x-wires and four work wires:
construction succeeds, `5 mod 3 = 2` is stored and is coprime to 3. -/
theorem multiplier_coprimality_witness :
    ((∃ m, multiplierConstruct 5 [0, 1] (some 3) [2, 3, 4, 5] = .ok m) ↔
        Int.gcd ((5 : ℤ) % 3) 3 = 1) ∧
    (∀ m, multiplierConstruct 5 [0, 1] (some 3) [2, 3, 4, 5] = .ok m →
        m.k = (5 : ℤ) % 3 ∧ 0 ≤ m.k ∧ m.k < 3 ∧ Int.gcd m.k 3 = 1) :=
  multiplier_coprimality 5 [0, 1] [2, 3, 4, 5] (some 3) 3 rfl (by decide)
    (by decide) (by decide) (by decide) (by decide)

/-- When `0 ≤ k` is coprime to a positive modulus, the search in
`modInverse` succeeds, and the value it returns is a modular inverse of
`k` in `[0, mod)`. -/
theorem modInverse_spec {k mod : ℤ} (hpos : 0 < mod) (hk0 : 0 ≤ k)
    (hcop : Int.gcd k mod = 1) :
    ∃ j, modInverse k mod = some j ∧ 0 ≤ j ∧ j < mod ∧
      k * j % mod = 1 % mod := by
  have hx : ∃ x ∈ List.range mod.toNat, (k * (x : ℤ) % mod == 1 % mod) = true := by
    by_cases hm1 : mod = 1
    · subst hm1
      exact ⟨0, by simp, by simp⟩
    · have h2 : (1 : ℤ) < mod := by omega
      have hco : Nat.Coprime k.natAbs mod.natAbs := hcop
      have hM1 : 1 < mod.natAbs := by omega
      obtain ⟨j0, hj0⟩ := Nat.exists_mul_emod_eq_one_of_coprime hco hM1
      refine ⟨j0 % mod.natAbs, ?_, ?_⟩
      · have : j0 % mod.natAbs < mod.natAbs := Nat.mod_lt _ (by omega)
        simp only [List.mem_range]
        omega
      · have hcast : ((k.natAbs * (j0 % mod.natAbs) % mod.natAbs : ℕ) : ℤ) =
            k * ((j0 % mod.natAbs : ℕ) : ℤ) % mod := by
          push_cast
          rw [abs_of_nonneg hk0, abs_of_pos hpos]
        have hval : k.natAbs * (j0 % mod.natAbs) % mod.natAbs = 1 := by
          rw [Nat.mul_mod, Nat.mod_mod_of_dvd j0 dvd_rfl, ← Nat.mul_mod]
          exact hj0
        have h1m : (1 : ℤ) % mod = 1 := Int.emod_eq_of_lt (by omega) h2
        rw [beq_iff_eq, h1m, ← hcast, hval]
        rfl
  obtain ⟨o, ho⟩ := Option.isSome_iff_exists.mp (List.find?_isSome.mpr hx)
  have hpo := List.find?_some ho
  have hmo := List.mem_of_find?_eq_some ho
  simp only [beq_iff_eq] at hpo
  have hlt : o < mod.toNat := List.mem_range.mp hmo
  refine ⟨(o : ℤ), ?_, by omega, by omega, hpo⟩
  unfold modInverse
  rw [ho]
  rfl

/-! ### C3: the structure of the `Multiplier` decomposition -/

/-- C3: for every successfully constructed `Multiplier` (with positive
modulus), `decomposition()` is exactly: the multiply-out subroutine for
`k` (basis transform on the auxiliary register, phase accumulation keyed
by `k` and `mod` controlled on every x-wire, inverse basis transform),
then one SWAP per active wire pairing the x-register with the auxiliary
swap register wire-for-wire, then the adjoint of the same subroutine
instantiated with the modular inverse of `k` modulo `mod`. -/
theorem multiplier_decomposition_structure (k : ℤ) (xWires workWires : List ℕ)
    (modArg : Option ℤ) (m : Multiplier)
    (hc : multiplierConstruct k xWires modArg workWires = .ok m)
    (hpos : 0 < m.mod) :
    ∃ invK : ℤ, 0 ≤ invK ∧ invK < m.mod ∧ m.k * invK % m.mod = 1 % m.mod ∧
      m.decomposition = some (
        mulOutKMod m.k m.xWires m.mod
          (if m.mod ≠ 2 ^ m.xWires.length then some (m.workWires.take 1) else none)
          (if m.mod ≠ 2 ^ m.xWires.length then m.workWires.drop 1
            else m.workWires.take m.xWires.length)
        ++ (List.zip m.xWires
            (if m.mod ≠ 2 ^ m.xWires.length then (m.workWires.drop 1).drop 1
              else m.workWires.take m.xWires.length)).map
            (fun p => MGate.swapG p.1 p.2)
        ++ adjointSeq (mulOutKMod invK m.xWires m.mod
            (if m.mod ≠ 2 ^ m.xWires.length then some (m.workWires.take 1) else none)
            (if m.mod ≠ 2 ^ m.xWires.length then m.workWires.drop 1
              else m.workWires.take m.xWires.length))) := by
  obtain ⟨hk, hmm, hxw, hww, hg, hne⟩ := multiplierConstruct_ok_inv hc
  have hk0 : 0 ≤ m.k := by
    have hkm : m.k = k % m.mod := by rw [hk, hmm]
    rw [hkm]
    exact Int.emod_nonneg k (by omega)
  obtain ⟨j, hjf, hj0, hjlt, hjinv⟩ := modInverse_spec hpos hk0 hg
  refine ⟨j, hj0, hjlt, hjinv, ?_⟩
  simp only [Multiplier.decomposition, computeDecomposition, hjf, Option.map_some']

/-- Witness for C3: the docstring example `k = 3`, `mod = 8`,
`x_wires = [0, 1, 2]`, `work_wires = [3, 4, 5]`. -/
theorem multiplier_decomposition_structure_witness :
    ∃ invK : ℤ, 0 ≤ invK ∧
      invK < (Multiplier.mk 3 8 [0, 1, 2] [3, 4, 5]).mod ∧
      (Multiplier.mk 3 8 [0, 1, 2] [3, 4, 5]).k * invK %
          (Multiplier.mk 3 8 [0, 1, 2] [3, 4, 5]).mod =
        1 % (Multiplier.mk 3 8 [0, 1, 2] [3, 4, 5]).mod ∧
      (Multiplier.mk 3 8 [0, 1, 2] [3, 4, 5]).decomposition = some (
        mulOutKMod (Multiplier.mk 3 8 [0, 1, 2] [3, 4, 5]).k
          (Multiplier.mk 3 8 [0, 1, 2] [3, 4, 5]).xWires
          (Multiplier.mk 3 8 [0, 1, 2] [3, 4, 5]).mod
          (if (Multiplier.mk 3 8 [0, 1, 2] [3, 4, 5]).mod ≠
              2 ^ (Multiplier.mk 3 8 [0, 1, 2] [3, 4, 5]).xWires.length then
            some ((Multiplier.mk 3 8 [0, 1, 2] [3, 4, 5]).workWires.take 1)
          else none)
          (if (Multiplier.mk 3 8 [0, 1, 2] [3, 4, 5]).mod ≠
              2 ^ (Multiplier.mk 3 8 [0, 1, 2] [3, 4, 5]).xWires.length then
            (Multiplier.mk 3 8 [0, 1, 2] [3, 4, 5]).workWires.drop 1
          else (Multiplier.mk 3 8 [0, 1, 2] [3, 4, 5]).workWires.take
            (Multiplier.mk 3 8 [0, 1, 2] [3, 4, 5]).xWires.length)
        ++ (List.zip (Multiplier.mk 3 8 [0, 1, 2] [3, 4, 5]).xWires
            (if (Multiplier.mk 3 8 [0, 1, 2] [3, 4, 5]).mod ≠
                2 ^ (Multiplier.mk 3 8 [0, 1, 2] [3, 4, 5]).xWires.length then
              ((Multiplier.mk 3 8 [0, 1, 2] [3, 4, 5]).workWires.drop 1).drop 1
            else (Multiplier.mk 3 8 [0, 1, 2] [3, 4, 5]).workWires.take
              (Multiplier.mk 3 8 [0, 1, 2] [3, 4, 5]).xWires.length)).map
            (fun p => MGate.swapG p.1 p.2)
        ++ adjointSeq (mulOutKMod invK
            (Multiplier.mk 3 8 [0, 1, 2] [3, 4, 5]).xWires
            (Multiplier.mk 3 8 [0, 1, 2] [3, 4, 5]).mod
            (if (Multiplier.mk 3 8 [0, 1, 2] [3, 4, 5]).mod ≠
                2 ^ (Multiplier.mk 3 8 [0, 1, 2] [3, 4, 5]).xWires.length then
              some ((Multiplier.mk 3 8 [0, 1, 2] [3, 4, 5]).workWires.take 1)
            else none)
            (if (Multiplier.mk 3 8 [0, 1, 2] [3, 4, 5]).mod ≠
                2 ^ (Multiplier.mk 3 8 [0, 1, 2] [3, 4, 5]).xWires.length then
              (Multiplier.mk 3 8 [0, 1, 2] [3, 4, 5]).workWires.drop 1
            else (Multiplier.mk 3 8 [0, 1, 2] [3, 4, 5]).workWires.take
              (Multiplier.mk 3 8 [0, 1, 2] [3, 4, 5]).xWires.length))) :=
  multiplier_decomposition_structure 3 [0, 1, 2] [3, 4, 5] (some 8)
    (Multiplier.mk 3 8 [0, 1, 2] [3, 4, 5]) (by decide) (by decide)

/-! ### C2: when validation happens -/

/-- C2 counterexample: the static-shape (`jit=True`) path defers its
validation to decomposition time: with the three-term LCU of the test
suite, construction succeeds, yet `decomposition()` raises. -/
theorem jit_checks_deferred_counterexample :
    prepSelPrepConstruct [⟨1, 0⟩, ⟨2, 0⟩, ⟨3, 0⟩] [[1], [1], [1]] [0] true =
      .ok ⟨[⟨1, 0⟩, ⟨2, 0⟩, ⟨3, 0⟩], [[1], [1], [1]], [0], true⟩ ∧
    (PrepSelPrep.mk [⟨1, 0⟩, ⟨2, 0⟩, ⟨3, 0⟩] [[1], [1], [1]] [0] true).decomposition =
      .error "Number of terms must be a power of 2." := by
  constructor
  · rfl
  · rfl

/-- C2 amended: construction-time validation guarantees later success for
every operator except the static-shape path: a successfully constructed
`Multiplier` (positive modulus) always decomposes without failure, and a
successfully constructed `PrepSelPrep` with `jit = False` always
decomposes without failure; only the `jit = True` checks run at
decomposition time. -/
theorem construction_validation_eagerness :
    (∀ (k : ℤ) (xWires workWires : List ℕ) (modArg : Option ℤ) (m : Multiplier),
        multiplierConstruct k xWires modArg workWires = .ok m → 0 < m.mod →
        m.decomposition.isSome = true) ∧
    (∀ (coeffs : List CoeffQ) (opsWires : List (List ℕ)) (control : List ℕ)
        (p : PrepSelPrep),
        prepSelPrepConstruct coeffs opsWires control false = .ok p →
        p.decomposition = .ok ()) := by
  constructor
  · intro k xW wW modArg m hc hpos
    obtain ⟨hk, hmm, hxw, hww, hg, hne⟩ := multiplierConstruct_ok_inv hc
    have hk0 : 0 ≤ m.k := by
      have hkm : m.k = k % m.mod := by rw [hk, hmm]
      rw [hkm]
      exact Int.emod_nonneg k (by omega)
    obtain ⟨j, hjf, -, -, -⟩ := modInverse_spec hpos hk0 hg
    simp only [Multiplier.decomposition, computeDecomposition, hjf,
      Option.map_some', Option.isSome_some]
  · intro coeffs oW ctl p hc
    simp only [prepSelPrepConstruct] at hc
    split_ifs at hc
    injection hc with h
    subst h
    rfl

/-- Witness for C2: the `Multiplier` of the docstring example decomposes
after construction, and a `jit = False` `PrepSelPrep` decomposes after
construction. -/
theorem construction_validation_eagerness_witness :
    (Multiplier.mk 3 8 [0, 1, 2] [3, 4, 5]).decomposition.isSome = true ∧
    (PrepSelPrep.mk [⟨1, 0⟩] [[1]] [0] false).decomposition = .ok () :=
  ⟨construction_validation_eagerness.1 3 [0, 1, 2] [3, 4, 5] (some 8)
      (Multiplier.mk 3 8 [0, 1, 2] [3, 4, 5]) (by decide) (by decide),
   construction_validation_eagerness.2 [⟨1, 0⟩] [[1]] [0]
      (PrepSelPrep.mk [⟨1, 0⟩] [[1]] [0] false) (by decide)⟩

/-! ### C6: static-shape diagnostics -/

/-- C6: the static-shape (`jit=True`) path fails with a distinct specific
diagnostic when the number of LCU terms is not a power of two, when (the
term count being a power of two) some coefficient is complex or negative,
and when (the coefficients being non-negative reals) they are not
L2-normalized; it succeeds when all three conditions hold. -/
theorem jit_static_shape_diagnostics (coeffs : List CoeffQ)
    (opsWires : List (List ℕ)) (control : List ℕ) :
    (¬ isPowerOfTwoNat coeffs.length = true →
      (PrepSelPrep.mk coeffs opsWires control true).decomposition =
        .error "Number of terms must be a power of 2.") ∧
    (isPowerOfTwoNat coeffs.length = true →
      (∃ c ∈ coeffs, c.im ≠ 0 ∨ c.re < 0) →
      (PrepSelPrep.mk coeffs opsWires control true).decomposition =
        .error "Coefficients must be positive real numbers.") ∧
    (isPowerOfTwoNat coeffs.length = true →
      (∀ c ∈ coeffs, c.im = 0 ∧ 0 ≤ c.re) →
      coeffNormSq coeffs ≠ 1 →
      (PrepSelPrep.mk coeffs opsWires control true).decomposition =
        .error "Coefficients must have norm 1.") ∧
    (isPowerOfTwoNat coeffs.length = true →
      (∀ c ∈ coeffs, c.im = 0 ∧ 0 ≤ c.re) →
      coeffNormSq coeffs = 1 →
      (PrepSelPrep.mk coeffs opsWires control true).decomposition = .ok ()) ∧
    ("Number of terms must be a power of 2." ≠
        "Coefficients must be positive real numbers." ∧
      "Number of terms must be a power of 2." ≠
        "Coefficients must have norm 1." ∧
      "Coefficients must be positive real numbers." ≠
        "Coefficients must have norm 1.") := by
  have hpos : ∀ (h : ∀ c ∈ coeffs, c.im = 0 ∧ 0 ≤ c.re),
      (coeffs.any fun c => c.im != 0 || c.re < 0) = false := by
    intro h
    rw [List.any_eq_false]
    intro c hc
    simp only [Bool.or_eq_true, bne_iff_ne, decide_eq_true_eq, not_or, not_not,
      not_lt, ne_eq]
    exact ⟨(h c hc).1, (h c hc).2⟩
  refine ⟨fun h1 => ?_, fun h1 h2 => ?_, fun h1 h2 h3 => ?_,
    fun h1 h2 h3 => ?_, by decide, by decide, by decide⟩
  · simp only [PrepSelPrep.decomposition, jitChecks, if_true]
    rw [if_pos h1]
  · have hany : (coeffs.any fun c => c.im != 0 || c.re < 0) = true := by
      obtain ⟨c, hc, hor⟩ := h2
      simp only [List.any_eq_true]
      refine ⟨c, hc, ?_⟩
      rcases hor with h | h
      · simp [bne_iff_ne, h]
      · simp [h]
    simp only [PrepSelPrep.decomposition, jitChecks, if_true]
    rw [if_neg (by simpa using h1), if_pos hany]
  · simp only [PrepSelPrep.decomposition, jitChecks, if_true]
    rw [if_neg (by simpa using h1), if_neg (by simp [hpos h2]), if_pos h3]
  · simp only [PrepSelPrep.decomposition, jitChecks, if_true]
    rw [if_neg (by simpa using h1), if_neg (by simp [hpos h2]), if_neg (by simp [h3])]

/-- Witness for C6: a three-term LCU triggers the power-of-two
diagnostic, and the two-term LCU with coefficients `1` and `0` (a test
case of the suite) passes all three checks and decomposes successfully. -/
theorem jit_static_shape_diagnostics_witness :
    (PrepSelPrep.mk [⟨1, 0⟩, ⟨2, 0⟩, ⟨3, 0⟩] [] [] true).decomposition =
      .error "Number of terms must be a power of 2." ∧
    (PrepSelPrep.mk [⟨1, 0⟩, ⟨0, 0⟩] [] [] true).decomposition = .ok () :=
  ⟨(jit_static_shape_diagnostics [⟨1, 0⟩, ⟨2, 0⟩, ⟨3, 0⟩] [] []).1 (by decide),
   (jit_static_shape_diagnostics [⟨1, 0⟩, ⟨0, 0⟩] [] []).2.2.2.1
     (by decide) (by simp) (by simp [coeffNormSq])⟩

/-! ### C10: `map_wires` on `Multiplier` -/

/-- C10 counterexample: `map_wires` does not always return a new
`Multiplier`: mapping the work wire of a valid `Multiplier` onto its
x-wire makes the re-run construction-time validation fail. -/
theorem multiplier_mapWires_counterexample :
    multiplierConstruct 1 [0] none [1] = .ok ⟨1, 2, [0], [1]⟩ ∧
    (Multiplier.mk 1 2 [0] [1]).mapWires [(1, 0)] =
      .error "None of the wire in work_wires should be included in x_wires." := by
  constructor
  · rfl
  · rfl

/-- C10 amended: for every successfully constructed `Multiplier` and
every wire mapping, whenever the remapped wire lists pass the re-run
construction validation, `map_wires` returns a new `Multiplier` whose
hyperparameters `k` and `mod` are unchanged and whose registers are
remapped elementwise (wires absent from the mapping kept as they are);
the original, an immutable value, is unmodified.  When the re-run
validation fails (for example when the mapping merges an x-wire and a
work wire), `map_wires` fails instead of returning an operator. -/
theorem multiplier_mapWires_amended (k : ℤ) (xWires workWires : List ℕ)
    (modArg : Option ℤ) (m m2 : Multiplier) (wireMap : List (ℕ × ℕ))
    (hc : multiplierConstruct k xWires modArg workWires = .ok m)
    (hmap : m.mapWires wireMap = .ok m2) :
    m2.k = m.k ∧ m2.mod = m.mod ∧
    m2.xWires = m.xWires.map (applyWireMap wireMap) ∧
    m2.workWires = m.workWires.map (applyWireMap wireMap) := by
  obtain ⟨hk, hmm, -, -, -, -⟩ := multiplierConstruct_ok_inv hc
  obtain ⟨hk2, hmm2, hx2, hw2, -, -⟩ := multiplierConstruct_ok_inv hmap
  simp only [Option.getD_some] at hk2 hmm2
  have hkred : m.k % m.mod = m.k := by
    rw [hk, hmm]
    exact Int.emod_emod_of_dvd k dvd_rfl
  exact ⟨by rw [hk2, hkred], hmm2, hx2, hw2⟩

/-- Witness for C10: remapping wire 0 to wire 6 on the docstring
`Multiplier` yields a `Multiplier` with the same `k` and `mod` and
elementwise-remapped registers. -/
theorem multiplier_mapWires_amended_witness :
    (Multiplier.mk 3 8 [6, 1, 2] [3, 4, 5]).k =
        (Multiplier.mk 3 8 [0, 1, 2] [3, 4, 5]).k ∧
    (Multiplier.mk 3 8 [6, 1, 2] [3, 4, 5]).mod =
        (Multiplier.mk 3 8 [0, 1, 2] [3, 4, 5]).mod ∧
    (Multiplier.mk 3 8 [6, 1, 2] [3, 4, 5]).xWires =
        (Multiplier.mk 3 8 [0, 1, 2] [3, 4, 5]).xWires.map
          (applyWireMap [(0, 6)]) ∧
    (Multiplier.mk 3 8 [6, 1, 2] [3, 4, 5]).workWires =
        (Multiplier.mk 3 8 [0, 1, 2] [3, 4, 5]).workWires.map
          (applyWireMap [(0, 6)]) :=
  multiplier_mapWires_amended 3 [0, 1, 2] [3, 4, 5] (some 8)
    (Multiplier.mk 3 8 [0, 1, 2] [3, 4, 5])
    (Multiplier.mk 3 8 [6, 1, 2] [3, 4, 5]) [(0, 6)] (by decide) (by decide)

/-! ### C1: the block-encoding property of `PrepSelPrep` -/

/-- The entry of the select stage times an identity-extended control
operator: the control index is preserved and the selected unitary's row
is contracted with the control operator. -/
theorem selectMatrix_mul_controlTensor {n d : ℕ}
    (V : Fin n → Matrix (Fin d) (Fin d) ℂ) (B : Matrix (Fin n) (Fin n) ℂ)
    (i b : Fin n) (u t : Fin d) :
    ((selectMatrix V * controlTensor B :
      Matrix (Fin n × Fin d) (Fin n × Fin d) ℂ)) (i, u) (b, t) =
      V i u t * B i b := by
  rw [Matrix.mul_apply, Fintype.sum_prod_type]
  simp [selectMatrix, controlTensor, ite_mul, mul_ite, Finset.sum_ite_eq,
    Finset.sum_ite_eq']

/-- The entry of an identity-extended control operator times any matrix
on the composite register. -/
theorem controlTensor_mul {n d : ℕ} (A : Matrix (Fin n) (Fin n) ℂ)
    (M : Matrix (Fin n × Fin d) (Fin n × Fin d) ℂ) (a : Fin n) (s : Fin d)
    (q : Fin n × Fin d) :
    ((controlTensor A * M : Matrix (Fin n × Fin d) (Fin n × Fin d) ℂ)) (a, s) q =
      ∑ i, A a i * M (i, s) q := by
  rw [Matrix.mul_apply, Fintype.sum_prod_type]
  simp [controlTensor, ite_mul, Finset.sum_ite_eq, Finset.sum_ite_eq']

/-- Closed form for an entry of the three-stage decomposition matrix. -/
theorem blockEncodingMatrix_apply {n d : ℕ} (c : Fin n → ℂ)
    (U : Fin n → Matrix (Fin d) (Fin d) ℂ) (P : Matrix (Fin n) (Fin n) ℂ)
    (a b : Fin n) (s t : Fin d) :
    blockEncodingMatrix c U P (a, s) (b, t) =
      ∑ i, (starRingEnd ℂ) (P i a) * (lcuPhase (c i) * U i s t) * P i b := by
  rw [blockEncodingMatrix, Matrix.mul_assoc, controlTensor_mul]
  refine Finset.sum_congr rfl fun i _ => ?_
  rw [selectMatrix_mul_controlTensor]
  simp [Matrix.conjTranspose_apply, Matrix.smul_apply, smul_eq_mul]
  ring

/-- Squaring the amplitude of a coefficient and multiplying by its phase
recovers the coefficient divided by the normalization factor, for every
complex coefficient (including zero) and every non-negative factor. -/
theorem amp_phase_sq (ci : ℂ) (lam : ℝ) (hlam : 0 ≤ lam) :
    ((lcuAmplitude ci lam : ℝ) : ℂ) * lcuPhase ci *
      ((lcuAmplitude ci lam : ℝ) : ℂ) = ci / (lam : ℂ) := by
  have hsq : ((lcuAmplitude ci lam : ℝ) : ℂ) * ((lcuAmplitude ci lam : ℝ) : ℂ) =
      ((Complex.abs ci / lam : ℝ) : ℂ) := by
    rw [← Complex.ofReal_mul, lcuAmplitude,
      Real.mul_self_sqrt (div_nonneg (Complex.abs.nonneg ci) hlam)]
  have hre : ((lcuAmplitude ci lam : ℝ) : ℂ) * lcuPhase ci *
      ((lcuAmplitude ci lam : ℝ) : ℂ) =
      ((Complex.abs ci / lam : ℝ) : ℂ) * lcuPhase ci := by
    rw [← hsq]; ring
  rw [hre]
  rcases eq_or_ne ci 0 with rfl | hci
  · simp [lcuPhase]
  · rcases eq_or_ne lam 0 with rfl | hlam0
    · simp
    · have habs : (Complex.abs ci : ℂ) ≠ 0 := by
        simpa using Complex.abs.ne_zero hci
      have hlamc : (lam : ℂ) ≠ 0 := by
        simpa using hlam0
      rw [lcuPhase]
      push_cast
      field_simp
      ring

/-- C1: for every LCU with arbitrary complex coefficients `c i`, the
matrix of the block-encoding composer's three-stage decomposition,
restricted to the top-left block matching the target operator's dimension
(control register in state 0 on both sides), equals the target operator's
matrix `∑ i, c i • U i` divided by the L1 norm `∑ i, |c i|` of the
original coefficients — for any state-preparation unitary whose first
column carries the amplitudes `√(|c i| / λ)`. -/
theorem prepSelPrep_block_encoding {n d : ℕ} [NeZero n] (c : Fin n → ℂ)
    (U : Fin n → Matrix (Fin d) (Fin d) ℂ) (P : Matrix (Fin n) (Fin n) ℂ)
    (hP : ∀ i, P i 0 = ((lcuAmplitude (c i) (l1Norm c) : ℝ) : ℂ)) (s t : Fin d) :
    blockEncodingMatrix c U P (0, s) (0, t) =
      (∑ i, c i * U i s t) / ((l1Norm c : ℝ) : ℂ) := by
  have hlam : 0 ≤ l1Norm c := Finset.sum_nonneg fun i _ => Complex.abs.nonneg _
  rw [blockEncodingMatrix_apply, Finset.sum_div]
  refine Finset.sum_congr rfl fun i _ => ?_
  rw [hP i, Complex.conj_ofReal]
  have hterm := amp_phase_sq (c i) (l1Norm c) hlam
  calc ((lcuAmplitude (c i) (l1Norm c) : ℝ) : ℂ) * (lcuPhase (c i) * U i s t) *
        ((lcuAmplitude (c i) (l1Norm c) : ℝ) : ℂ)
      = ((lcuAmplitude (c i) (l1Norm c) : ℝ) : ℂ) * lcuPhase (c i) *
          ((lcuAmplitude (c i) (l1Norm c) : ℝ) : ℂ) * U i s t := by ring
    _ = c i / ((l1Norm c : ℝ) : ℂ) * U i s t := by rw [hterm]
    _ = c i * U i s t / ((l1Norm c : ℝ) : ℂ) := by ring

/-- Witness for C1: the single-term LCU with coefficient 1 and the
identity unitary, prepared by the identity: the top-left entry of the
decomposition matrix is the target entry divided by the L1 norm. -/
theorem prepSelPrep_block_encoding_witness :
    (∀ i : Fin 1, (1 : Matrix (Fin 1) (Fin 1) ℂ) i 0 =
      ((lcuAmplitude ((fun _ : Fin 1 => (1 : ℂ)) i)
        (l1Norm (fun _ : Fin 1 => (1 : ℂ))) : ℝ) : ℂ)) ∧
    blockEncodingMatrix (fun _ : Fin 1 => (1 : ℂ))
        (fun _ : Fin 1 => (1 : Matrix (Fin 1) (Fin 1) ℂ)) 1 (0, 0) (0, 0) =
      (∑ i : Fin 1, (1 : ℂ) * (1 : Matrix (Fin 1) (Fin 1) ℂ) 0 0) /
        ((l1Norm (fun _ : Fin 1 => (1 : ℂ)) : ℝ) : ℂ) := by
  have hP : ∀ i : Fin 1, (1 : Matrix (Fin 1) (Fin 1) ℂ) i 0 =
      ((lcuAmplitude ((fun _ : Fin 1 => (1 : ℂ)) i)
        (l1Norm (fun _ : Fin 1 => (1 : ℂ))) : ℝ) : ℂ) := by
    intro i
    simp [lcuAmplitude, l1Norm, Matrix.one_apply, Fin.eq_zero]
  exact ⟨hP, prepSelPrep_block_encoding _ _ _ hP 0 0⟩
